import Mathlib

/-!
Verification development for the stdoc documentation generator.

This file gives a shallow embedding of the core of the generator:
the path/URL arithmetic of `util.py` (`AbstractPath`, `Url`), the
configuration tree of `collect.py` (`Bundle.config`), the page model of
`pageinfo.py` (`PageInfo`, URL derivation, `add_label`), and the
cross-reference resolution and patching pass of `__main__.py`
(`resolve_label`, `replace_url`, `patch_static_urls`).

Python strings are Lean `String`s; we manipulate them through small
character-level split/join helpers so that every definition is a plain
structural recursion the kernel can evaluate.
-/

namespace Stdoc

/-! ## Character-level string splitting and joining

`splitCh sep s` models Python `s.split(sep)` for a one-character
separator (also the behaviour of `str.splitOn` in the places the source
uses it); `joinCh sep l` models `sep.join(l)`.
-/

/-- Split a character list on a separator character.  Always returns a
nonempty list of (possibly empty) pieces. -/
def splitChAux (sep : Char) : List Char → List (List Char)
  | [] => [[]]
  | c :: t =>
    if c = sep then [] :: splitChAux sep t
    else
      match splitChAux sep t with
      | [] => [[c]]
      | h :: r => (c :: h) :: r

/-- Join character-list pieces with a separator character. -/
def joinChAux (sep : Char) : List (List Char) → List Char
  | [] => []
  | [x] => x
  | x :: y :: t => x ++ sep :: joinChAux sep (y :: t)

/-- String-level split on a one-character separator. -/
def splitCh (sep : Char) (s : String) : List String :=
  (splitChAux sep s.data).map String.mk

/-- String-level join with a one-character separator. -/
def joinCh (sep : Char) (l : List String) : String :=
  String.mk (joinChAux sep (l.map String.data))

/-! ## Path and URL arithmetic (`util.py`, class `AbstractPath` / `Url`)

Paths are absolute strings: they begin with `/` and do not end with `/`
unless they are exactly `/` (`AbstractPath.assertValid`).
-/

/-- The `/`-separated segments of a path, dropping empty pieces.  For a
slash-normalized absolute path `/a/b` this is `["a", "b"]`; for `/` it
is `[]`. -/
def segsOf (s : String) : List String :=
  (splitCh '/' s).filter (fun x => x ≠ "")

/-- Rebuild an absolute path string from its segments: `pathOf ["a","b"]
is `/a/b`, `pathOf [] = "/"`. -/
def pathOf (l : List String) : String :=
  String.mk ('/' :: joinChAux '/' (l.map String.data))

/-- Model of Python `s[1:]`. -/
def tail1 (s : String) : String := String.mk s.data.tail

/-- Model of `AbstractPath.assertValid`: the string starts with `/` and
does not end with `/` unless it is exactly `/`.  (The Python method
raises on invalid paths; the theorems below carry validity as a
hypothesis instead.) -/
def validPath (s : String) : Bool :=
  s.data.head? = some '/' && (s = "/" || s.data.getLast? ≠ some '/')

/-- Model of `os.path.dirname` for absolute, slash-normalized paths
(the only paths the source applies it to): drop the final segment.
`dirname "/a/b" = "/a"`, `dirname "/a" = "/"`, `dirname "/" = "/"`. -/
def stDirname (p : String) : String :=
  pathOf (segsOf p).dropLast

/-- Model of `os.path.relpath("/", base)` for an absolute base without
`.` or `..` segments: one `..` per segment of `base`, or `.` when
`base` is the root. -/
def relpathRoot (base : String) : String :=
  if (segsOf base).isEmpty then "."
  else joinCh '/' (List.replicate (segsOf base).length "..")

/-- Model of `os.path.join(a, b)` for POSIX paths (two arguments). -/
def stJoin (a b : String) : String :=
  if b.data.head? = some '/' then b
  else if a = "" || a.data.getLast? = some '/' then a ++ b
  else a ++ "/" ++ b

/-- `AbstractPath._relpath`: the relative path from `selfPath` (the base
page URL) to `target`, always expressed as enough `..` to go back to the
root followed by the target. -/
def stRelpath (selfPath target : String) : String :=
  if target = "/" then relpathRoot (stDirname selfPath)
  else if stDirname selfPath = "/" then tail1 target
  else stJoin (relpathRoot (stDirname selfPath)) (tail1 target)

/-- `Url.__truediv__` / `AbstractPath._join`: join a subpath onto a URL. -/
def urlDiv (base sub : String) : String := stJoin base sub

/-- `Url.addHtmlSuffix`. -/
def addHtmlSuffix (path : String) : String :=
  if path.data.getLast? = some '/' then path ++ "index.html" else path ++ ".html"

/-! ### Spec-side definitions for claim C3

`resolveAgainst rel B` is modelled from the spec: browser-style textual
resolution of the relative reference `rel` against the URL `B` — take
`B`'s directory (everything before the final segment), then process the
segments of `rel` in order: `..` pops one directory, `.` and empty
segments are no-ops, anything else is appended.

`claimCanonicalForm A B` is the output shape asserted by the spec: a
sequence of `..` segments back to the root (one per directory segment of
`B`) followed by `A` minus its leading `/`. -/

/-- One step of browser-style relative resolution. -/
def resolveStep (acc : List String) (seg : String) : List String :=
  if seg = ".." then acc.dropLast
  else if seg = "." || seg = "" then acc
  else acc ++ [seg]

/-- Modelled from the spec: textual browser-style resolution of a
relative path against the directory of the absolute URL `B`. -/
def resolveAgainst (rel B : String) : String :=
  pathOf ((splitCh '/' rel).foldl resolveStep (segsOf B).dropLast)

/-- Modelled from the spec: the canonical relative form the claim
asserts — `..` segments back to the root, then the target minus its
leading slash. -/
def claimCanonicalForm (A B : String) : String :=
  joinCh '/' (List.replicate (segsOf B).dropLast.length ".." ++ segsOf A)

/-- A well-formed path segment: nonempty, slash-free, and not a relative
marker. -/
def okSeg (s : String) : Bool :=
  s ≠ "" && s ≠ "." && s ≠ ".." && ¬('/' ∈ s.data)

/-! ## Configuration values and the bundle tree (`collect.py`)

A bundle configuration is the YAML document of its `stdoc.conf`:
mappings, sequences and scalars.  `Bundle.config` performs a dotted
key-path lookup with fallback to the parent bundle.
-/

/-- A YAML value as loaded by `yaml.safe_load`. -/
inductive ConfigVal where
  | null
  | bool (b : Bool)
  | int (n : Int)
  | str (s : String)
  | list (elems : List ConfigVal)
  | obj (entries : List (String × ConfigVal))

/-- Python truthiness of a YAML value (`if self.config(...)`). -/
def truthy : ConfigVal → Bool
  | .null => false
  | .bool b => b
  | .int n => n ≠ 0
  | .str s => s ≠ ""
  | .list l => ¬l.isEmpty
  | .obj m => ¬m.isEmpty

/-- Python substring containment `needle in hay` for strings. -/
def containsSub (needle : List Char) : List Char → Bool
  | [] => needle.isEmpty
  | c :: t => needle.isPrefixOf (c :: t) || containsSub needle t

/-- Python `v == key` between an arbitrary value and a string. -/
def cvIsStr (v : ConfigVal) (key : String) : Bool :=
  match v with
  | .str t => t = key
  | _ => false

/-- Python `key in dic` where `dic` is an arbitrary value: key
membership for mappings, substring test for strings, element equality
for sequences; `none` models the `TypeError` raised for the remaining
scalars. -/
def cvContains (v : ConfigVal) (key : String) : Option Bool :=
  match v with
  | .obj m => some (m.any (fun e => e.1 = key))
  | .str s => some (containsSub key.data s.data)
  | .list l => some (l.any (fun e => cvIsStr e key))
  | _ => none

/-- Python `dic[key]`: mapping lookup; `none` models the exception
raised when subscripting a string or sequence with a string key. -/
def cvIndex (v : ConfigVal) (key : String) : Option ConfigVal :=
  match v with
  | .obj m => (m.find? (fun e => e.1 = key)).map (fun e => e.2)
  | _ => none

/-- Outcome of the inner `lookup` helper of `Bundle.config`: the
`(found, value)` pair, or a raised `TypeError`. -/
inductive LookupRes where
  | ok (found : Bool) (v : ConfigVal)
  | raised

/-- The inner `lookup(dic, fields, i)` of `Bundle.config`, recursing on
the remaining fields. -/
def lookupFields (default : ConfigVal) : ConfigVal → List String → LookupRes
  | dic, [] => .ok true dic
  | dic, f :: rest =>
    match cvContains dic f with
    | none => .raised
    | some false => .ok false default
    | some true =>
      match cvIndex dic f with
      | none => .raised
      | some v => lookupFields default v rest

/-- A bundle: its directory, its parsed `stdoc.conf`, and (for
non-root bundles) the parent set by `registerSubdir`. -/
inductive Bundle where
  | root (dir : String) (config : ConfigVal)
  | child (dir : String) (config : ConfigVal) (parent : Bundle)

/-- The bundle's own configuration document (`self._config`). -/
def Bundle.ownConfig : Bundle → ConfigVal
  | .root _ c => c
  | .child _ c _ => c

/-- The bundle's directory (`self._dir`). -/
def Bundle.dirOf : Bundle → String
  | .root d _ => d
  | .child d _ _ => d

/-- The `lookupInBundle` helper of `Bundle.config`: look up in this
bundle's config, falling back to the parent when the key is not found.
A raised `TypeError` propagates as `Except.error`. -/
def Bundle.configFields (b : Bundle) (fields : List String)
    (default : ConfigVal) : Except Unit ConfigVal :=
  match lookupFields default b.ownConfig fields with
  | .raised => .error ()
  | .ok true v => .ok v
  | .ok false v =>
    match b with
    | .root _ _ => .ok v
    | .child _ _ p => p.configFields fields default

/-- `Bundle.config(query, default)`: dotted key-path lookup with
ancestor fallback. -/
def Bundle.config (b : Bundle) (query : String) (default : ConfigVal) :
    Except Unit ConfigVal :=
  b.configFields (if query = "" then [] else splitCh '.' query) default

/-- `Bundle.labelNamespace`: empty for the top-level directory `.`,
otherwise the directory with `/` replaced by `:`, preceded by `:`. -/
def Bundle.labelNamespace (b : Bundle) : String :=
  if b.dirOf = "." then ""
  else ":" ++ String.mk (b.dirOf.data.map (fun c => if c = '/' then ':' else c))

/-! ## Python dict helpers

`PageInfo.labels` is a Python `dict[str, Url]`; we model it as an
association list in insertion order, with assignment overwriting in
place, exactly like a `dict`.
-/

/-- Python `d[k]` as an optional lookup (`k in d` + `d[k]`). -/
def dictGet (m : List (String × String)) (k : String) : Option String :=
  (m.find? (fun e => e.1 = k)).map (fun e => e.2)

/-- Python `d[k] = v`: overwrite in place if present, else append. -/
def dictSet (m : List (String × String)) (k v : String) :
    List (String × String) :=
  if m.any (fun e => e.1 = k) then
    m.map (fun e => if e.1 = k then (k, v) else e)
  else m ++ [(k, v)]

/-! ## The element-tree model (`xml.etree.ElementTree`)

Parsed pages are element trees.  Attribute values are normally strings,
but `patch_static_urls` stores the whole triple returned by
`replace_url` into `img` `src` attributes, so attribute values are
modelled as either a string or a Python 3-tuple. -/

/-- An attribute value: a string, or the 3-tuple that
`patch_static_urls` stores into `img[src]`. -/
inductive AttrVal where
  | str (s : String)
  | tup (newUrl oldText newText : Option String)
deriving DecidableEq

/-- An element-tree node: tag, attributes, text, children. -/
inductive Elem where
  | mk (tag : String) (attrib : List (String × AttrVal))
       (text : Option String) (children : List Elem)

/-- `e.get(name)`. -/
def Elem.getAttr : Elem → String → Option AttrVal
  | .mk _ attrib _ _, name =>
    (attrib.find? (fun e => e.1 = name)).map (fun e => e.2)

/-! ## The page model (`pageinfo.py`, class `PageInfo`) -/

/-- Info for a single source file representing a generated page.
`lang` is an `Option` because `resolve_label` explicitly tests
`p.lang is not None`. -/
structure PageInfo where
  bundle : Bundle
  id : String
  lang : Option String
  url_override : Option String := none
  template : String := "base.html"
  local_static : String := "/"
  title : String := ""
  label_namespace : String := ""
  labels : List (String × String) := []
  tree : Option Elem := none
  fragments : List (String × Elem) := []

/-- `PageInfo.config`: delegate to the owning bundle. -/
def PageInfo.config (p : PageInfo) (query : String) (default : ConfigVal) :
    Except Unit ConfigVal :=
  p.bundle.config query default

/-- `PageInfo._url_components`: language path component, `/<id>` path,
and suffix.  The suffix branch reproduces the source's literal
`"index.hml"` string for paths ending in a slash.  Accessing
`self.lang` when it is `None` would raise in Python and is modelled as
an error. -/
def PageInfo.urlComponents (p : PageInfo) (force_suffix : Bool := false) :
    Except Unit (String × String × String) := do
  let langsV ← p.config "languages" (.bool false)
  let langStr ←
    if truthy langsV then
      match p.lang with
      | some l => Except.ok ("/" ++ l)
      | none => Except.error ()
    else Except.ok ""
  let path := "/" ++ p.id
  let hsV ← p.config "urls.html_suffix" .null
  let suffix :=
    if force_suffix || truthy hsV then
      if path.data.getLast? = some '/' then "index.hml" else ".html"
    else ""
  Except.ok (langStr, path, suffix)

/-- `PageInfo._default_url` with `lang=True, suffix=True` (the form
`url()` uses). -/
def PageInfo.defaultUrl (p : PageInfo) (force_suffix : Bool := false) :
    Except Unit String := do
  let (langStr, path, suffix) ← p.urlComponents force_suffix
  Except.ok (langStr ++ path ++ suffix)

/-- `PageInfo._overridden_url`. -/
def PageInfo.overriddenUrl (p : PageInfo) (url : String)
    (force_suffix : Bool := false) : Except Unit String := do
  let hsV ← p.config "urls.html_suffix" .null
  if force_suffix || truthy hsV then Except.ok (addHtmlSuffix url)
  else Except.ok url

/-- `PageInfo.url`. -/
def PageInfo.url (p : PageInfo) : Except Unit String :=
  match p.url_override with
  | some u => p.overriddenUrl u
  | none => p.defaultUrl

/-- `PageInfo.relpath`: `target % self.url()`, i.e. the relative path
from this page's URL to `target`. -/
def PageInfo.relpath (p : PageInfo) (target : String) : Except Unit String := do
  let u ← p.url
  Except.ok (stRelpath u target)

/-- `PageInfo.localStaticUrl`. -/
def PageInfo.localStaticUrl (p : PageInfo) : String := p.local_static

/-- The diagnostic printed by `add_label` for a duplicate definition. -/
def dupLabelMsg (name target : String) : String :=
  "multiple definitions of label " ++ name ++ "; overriding to " ++ target

/-- `PageInfo.add_label`: qualify the bare name with the page's label
namespace, report (but tolerate) duplicates, last registration wins.
The leading assertion `not name.startswith("@")` is modelled as an
error.  Returns the updated page plus emitted diagnostics. -/
def PageInfo.addLabel (p : PageInfo) (name target : String) :
    Except Unit (PageInfo × List String) :=
  if name.data.head? = some '@' then .error ()
  else
    let q := p.label_namespace ++ ":" ++ name
    let msgs := if p.labels.any (fun e => e.1 = q) then [dupLabelMsg q target] else []
    .ok ({ p with labels := dictSet p.labels q target }, msgs)

/-! ## Label resolution (`__main__.py`, `resolve_label`)

The process-wide Python set `unresolved_labels` is modelled as a
duplicate-free list threaded through the functions that touch it.
-/

/-- Python `set.add`: insert if absent. -/
def insertSet (l : List String) (k : String) : List String :=
  if k ∈ l then l else l ++ [k]

/-- The qualification step of `resolve_label`: a token already starting
with `:` is absolute, otherwise it is prefixed with the source page's
label namespace and `:`. -/
def qualifyToken (sourcePage : PageInfo) (label : String) : String :=
  if label.data.head? = some ':' then label
  else sourcePage.label_namespace ++ ":" ++ label

/-- The language filter of `resolve_label`: a candidate page is skipped
iff both languages are set and differ. -/
def langSkip (plang lang : Option String) : Bool :=
  plang.isSome && lang.isSome && plang ≠ lang

/-- The hits one candidate page contributes: its matching labels paired
with its title (empty when the page is skipped by the language filter). -/
def pageHits (key : String) (lang : Option String) (p : PageInfo) :
    List (String × String) :=
  if langSkip p.lang lang then []
  else (p.labels.filter (fun e => e.1 = key)).map (fun e => (e.2, p.title))

/-- The `found` list accumulated by `resolve_label`, in page order. -/
def foundList (pages : List PageInfo) (key : String) (lang : Option String) :
    List (String × String) :=
  (pages.map (pageHits key lang)).flatten

/-- The diagnostic printed for an ambiguous label. -/
def multiLabelMsg (label : String) : String :=
  "multiple definitions of label @" ++ label ++ " found"

/-- Result of `resolve_label`: the updated unresolved-label set, the
`(target, title)` pair (target `none` for "not found"), and emitted
diagnostics. -/
structure ResolveOut where
  unresolved : List String
  target : Option String
  title : String
  msgs : List String
deriving DecidableEq

/-- `resolve_label(pages, sourcePage, label, lang)`. -/
def resolveLabel (unresolved : List String) (pages : List PageInfo)
    (sourcePage : PageInfo) (label : String) (lang : Option String) :
    ResolveOut :=
  match foundList pages (qualifyToken sourcePage label) lang with
  | [] => ⟨insertSet unresolved (qualifyToken sourcePage label), none, "", []⟩
  | [hit] => ⟨unresolved, some hit.1, hit.2, []⟩
  | hit :: _ :: _ =>
    ⟨unresolved, some hit.1, hit.2,
     [multiLabelMsg (qualifyToken sourcePage label)]⟩

/-- The program state `resolve_label` can see: the global
`unresolved_labels` set and the page set. -/
structure World where
  unresolved : List String
  pages : List PageInfo

/-- `resolve_label` as a transformer of the whole visible state: it
reads the pages and writes only the unresolved set. -/
def resolveLabelW (w : World) (sourcePage : PageInfo) (label : String)
    (lang : Option String) : World × (Option String × String) × List String :=
  let r := resolveLabel w.unresolved w.pages sourcePage label lang
  (⟨r.unresolved, w.pages⟩, (r.target, r.title), r.msgs)

/-- Fold a sequence of resolution calls, keeping only the unresolved
set (the process-wide effect). -/
def resolveMany (pages : List PageInfo) (unresolved : List String) :
    List (PageInfo × String × Option String) → List String
  | [] => unresolved
  | c :: rest =>
    resolveMany pages (resolveLabel unresolved pages c.1 c.2.1 c.2.2).unresolved rest

/-! ## Reference rewriting (`__main__.py`, `replace_url` and
`patch_static_urls`) -/

/-- `replace_url(p, url, pages)`: returns the updated unresolved set and
the Python triple `(new_url, old_text, new_text)`.

Branch order follows the source: the `url.startswith("=")` test comes
first, so it also captures every URL starting with `"=:"`, and the
`"=:"` branch below it is unreachable.  (Were it reached, Python would
raise `AttributeError`: `PageInfo` defines no `globalStaticUrl` method;
we model that dead branch as an error.) -/
def replaceUrl (unresolved : List String) (p : PageInfo)
    (url : Option String) (pages : List PageInfo) :
    Except Unit (List String × Option String × Option String × Option String) := do
  match url with
  | none => Except.ok (unresolved, none, none, none)
  | some u =>
    if u.data.head? = some '=' then do
      let r ← p.relpath (urlDiv p.localStaticUrl (tail1 u))
      Except.ok (unresolved, some r, none, none)
    else if u.data.take 2 = ['=', ':'] then
      Except.error ()
    else if u.data.head? = some '@' then
      let out := resolveLabel unresolved pages p (tail1 u) p.lang
      match out.target with
      | none => Except.ok (out.unresolved, none, none, none)
      | some target => do
        let r ← p.relpath target
        Except.ok (out.unresolved, some r, some u, some out.title)
    else
      Except.ok (unresolved, some u, none, none)

/-- `e.set(k, v)`: overwrite the attribute in place if present, else
append it. -/
def attrSet (attrib : List (String × AttrVal)) (k : String) (v : AttrVal) :
    List (String × AttrVal) :=
  if attrib.any (fun e => e.1 = k) then
    attrib.map (fun e => if e.1 = k then (k, v) else e)
  else attrib ++ [(k, v)]

/-- The `<a>` branch of `patch_static_urls` applied to one element:
rewrite `href`, or strip it and mark the element `broken`; replace the
text when it still equals the original reference token.  A missing
`href` together with an unresolvable URL reproduces the source's
`attrib.pop("href")` `KeyError`, modelled as an error; a non-string
`href` would raise inside `replace_url` and is modelled likewise. -/
def patchAnchor (unresolved : List String) (p : PageInfo)
    (pages : List PageInfo) (tag : String)
    (attrib : List (String × AttrVal)) (text : Option String) :
    Except Unit (List String × List (String × AttrVal) × Option String) := do
  let href ←
    match Elem.getAttr (.mk tag attrib text []) "href" with
    | none => Except.ok (none : Option String)
    | some (.str s) => Except.ok (some s)
    | some (.tup _ _ _) => Except.error ()
  let (u1, newUrl, oldText, newText) ← replaceUrl unresolved p href pages
  match newUrl with
  | none =>
    if attrib.any (fun e => e.1 = "href") then
      Except.ok (u1,
        attrSet (attrib.filter (fun e => e.1 ≠ "href")) "class" (.str "broken"),
        text)
    else Except.error ()
  | some nu =>
    let attrib' := attrSet attrib "href" (.str nu)
    let text' := if text = oldText then newText else text
    Except.ok (u1, attrib', text')

/-- The `<img>` branch of `patch_static_urls` applied to one element:
`img.set("src", replace_url(...))` stores the whole triple returned by
`replace_url` as the `src` attribute value. -/
def patchImage (unresolved : List String) (p : PageInfo)
    (pages : List PageInfo) (tag : String)
    (attrib : List (String × AttrVal)) (text : Option String) :
    Except Unit (List String × List (String × AttrVal)) := do
  let src ←
    match Elem.getAttr (.mk tag attrib text []) "src" with
    | none => Except.ok (none : Option String)
    | some (.str s) => Except.ok (some s)
    | some (.tup _ _ _) => Except.error ()
  let (u1, newUrl, oldText, newText) ← replaceUrl unresolved p src pages
  Except.ok (u1, attrSet attrib "src" (.tup newUrl oldText newText))

/-- One pass of `patch_static_urls` over a list of subtrees, applying
the anchor rule (`whichPass = true`) or the image rule
(`whichPass = false`) to every node whose tag matches, in document
order.  `fuel` bounds the recursion depth; any bound above the tree
size is exact (the Python iteration is over a finite tree). -/
def patchPass (whichPass : Bool) (p : PageInfo) (pages : List PageInfo) :
    Nat → List String → List Elem → Except Unit (List String × List Elem)
  | 0, _, _ => .error ()
  | _ + 1, unresolved, [] => .ok (unresolved, [])
  | fuel + 1, unresolved, .mk tag attrib text children :: rest => do
    let (u1, attrib', text') ←
      if whichPass then
        if tag = "a" then patchAnchor unresolved p pages tag attrib text
        else Except.ok (unresolved, attrib, text)
      else
        if tag = "img" then do
          let (u, a) ← patchImage unresolved p pages tag attrib text
          Except.ok (u, a, text)
        else Except.ok (unresolved, attrib, text)
    let (u2, children') ← patchPass whichPass p pages fuel u1 children
    let (u3, rest') ← patchPass whichPass p pages fuel u2 rest
    .ok (u3, .mk tag attrib' text' children' :: rest')

/-- `patch_static_urls(p, tree, pages)`: rewrite every descendant `<a>`
(first loop) then every descendant `<img>` (second loop) of `tree`,
threading the unresolved-label set through.  The root element itself is
not matched by `.//a` or `.//img`. -/
def patchStaticUrls (fuel : Nat) (unresolved : List String) (p : PageInfo)
    (pages : List PageInfo) : Elem → Except Unit (List String × Elem)
  | .mk tag attrib text children => do
    let (u1, children') ← patchPass true p pages fuel unresolved children
    let (u2, children'') ← patchPass false p pages fuel u1 children'
    .ok (u2, .mk tag attrib text children'')

/-! ## Spec-side definition for claim C6 -/

/-- Modelled from the spec side of claim C6: the default URL with a
language path component present only when the bundle declares
*multiple* languages (at least two entries in the `languages`
mapping), followed by `/<id>`, followed by `.html` exactly when the
`urls.html_suffix` policy is enabled.  To be compared with
`PageInfo.url`. -/
def claimDefaultUrl (p : PageInfo) : Except Unit String := do
  let langsV ← p.config "languages" (.bool false)
  let multiple :=
    match langsV with
    | .obj m => decide (2 ≤ m.length)
    | _ => false
  let hsV ← p.config "urls.html_suffix" .null
  Except.ok ((if multiple then "/" ++ (p.lang.getD "") else "") ++
             "/" ++ p.id ++ (if truthy hsV then ".html" else ""))

/-! ## Concrete scenarios used by the claims

The end-to-end scenario of the spec (claim C1): a root bundle with
`languages: {en, fr}` and `urls.html_suffix: true`, pages `index.md`
(id `index`, lang `en`, defining label `@home`), `index-fr.md` and
`about.md`, the latter containing a link whose target is `@home`.
-/

/-- The root bundle of the scenario, directory `.`. -/
def c1Bundle : Bundle :=
  .root "."
    (.obj [("languages", .obj [("en", .str "English"), ("fr", .str "French")]),
           ("urls", .obj [("html_suffix", .bool true)])])

/-- Page `index.md` as discovered and parsed, before label collection. -/
def c1IndexBase : PageInfo :=
  { bundle := c1Bundle, id := "index", lang := some "en", title := "Home" }

/-- Page `index.md` after `add_label("home", page.url())`. -/
def c1Index : PageInfo :=
  { c1IndexBase with labels := [(":home", "/en/index.html")] }

/-- Page `index-fr.md`: the French variant, same id, defining the same
label against its own URL. -/
def c1IndexFr : PageInfo :=
  { bundle := c1Bundle, id := "index", lang := some "fr", title := "Accueil",
    labels := [(":home", "/fr/index.html")] }

/-- Page `about.md`. -/
def c1About : PageInfo :=
  { bundle := c1Bundle, id := "about", lang := some "en", title := "About" }

/-- The full page set, in discovery order. -/
def c1Pages : List PageInfo := [c1Index, c1IndexFr, c1About]

/-- The parsed content tree of `about.md`: a link whose target is
`@home` and whose visible text is still the literal token `@home`. -/
def c1Tree : Elem :=
  .mk "div" [] none [.mk "a" [("href", .str "@home")] (some "@home") []]

/-- Claim C2's failing input: a sub-bundle whose config maps `x` to the
scalar `5`, with a parent bundle defining `x.y = 7`. -/
def c2Parent : Bundle := .root "." (.obj [("x", .obj [("y", .int 7)])])

/-- The sub-bundle with `x: 5`. -/
def c2Sub : Bundle := .child "sub" (.obj [("x", .int 5)]) c2Parent

/-- A page used by claims C4 and C5: URL `/en/about.html`, local static
base `/static`. -/
def c4Page : PageInfo :=
  { bundle := c1Bundle, id := "about", lang := some "en",
    local_static := "/static" }

/-- Claim C5's tree: an image whose source carries the local-static
reference prefix. -/
def c5Tree : Elem :=
  .mk "div" [] none [.mk "img" [("src", .str "=pic.png")] none []]

/-- Claim C6's counterexample bundle: exactly one declared language. -/
def c6Bundle : Bundle :=
  .root "." (.obj [("languages", .obj [("en", .str "English")])])

/-- Claim C6's counterexample page. -/
def c6Page : PageInfo :=
  { bundle := c6Bundle, id := "guide", lang := some "en" }

/-! # Theorems -/

/-! Basic lemmas about split/join. -/

theorem splitChAux_ne_nil (sep : Char) (x : List Char) :
    splitChAux sep x ≠ [] := by
  induction x with
  | nil => simp [splitChAux]
  | cons c t ih =>
    simp only [splitChAux]
    split
    · simp
    · cases h : splitChAux sep t with
      | nil => simp
      | cons a b => simp

/-- Splitting a separator-free piece yields just that piece. -/
theorem splitChAux_of_not_mem (sep : Char) (x : List Char)
    (hx : sep ∉ x) : splitChAux sep x = [x] := by
  induction x with
  | nil => rfl
  | cons c t ih =>
    simp only [List.mem_cons, not_or] at hx
    simp only [splitChAux]
    rw [if_neg (by simpa [eq_comm] using hx.1)]
    rw [ih hx.2]

/-- Splitting distributes over a separator occurrence after a
separator-free piece. -/
theorem splitChAux_append (sep : Char) (x r : List Char) (hx : sep ∉ x) :
    splitChAux sep (x ++ sep :: r) = x :: splitChAux sep r := by
  induction x with
  | nil => simp [splitChAux]
  | cons c t ih =>
    simp only [List.mem_cons, not_or] at hx
    simp only [List.cons_append, splitChAux, List.append_eq]
    rw [if_neg (by simpa [eq_comm] using hx.1)]
    rw [ih hx.2]

/-- `splitChAux` is a left inverse of `joinChAux` on nonempty lists of
separator-free pieces. -/
theorem splitChAux_joinChAux (sep : Char) (l : List (List Char))
    (hl : l ≠ []) (hfree : ∀ x ∈ l, sep ∉ x) :
    splitChAux sep (joinChAux sep l) = l := by
  induction l with
  | nil => exact absurd rfl hl
  | cons x t ih =>
    cases t with
    | nil =>
      simp only [joinChAux]
      exact splitChAux_of_not_mem sep x (hfree x (by simp))
    | cons y u =>
      simp only [joinChAux]
      rw [splitChAux_append sep x _ (hfree x (by simp))]
      rw [ih (by simp) (fun z hz => hfree z (List.mem_cons_of_mem x hz))]

/-- `joinChAux` is a left inverse of `splitChAux` unconditionally. -/
theorem joinChAux_splitChAux (sep : Char) (x : List Char) :
    joinChAux sep (splitChAux sep x) = x := by
  induction x with
  | nil => rfl
  | cons c t ih =>
    simp only [splitChAux]
    split
    · rename_i hc
      cases h : splitChAux sep t with
      | nil => exact absurd h (splitChAux_ne_nil sep t)
      | cons a b =>
        rw [h] at ih
        simp [joinChAux, ih, hc]
    · cases h : splitChAux sep t with
      | nil => exact absurd h (splitChAux_ne_nil sep t)
      | cons a b =>
        rw [h] at ih
        cases b with
        | nil => simp_all [joinChAux]
        | cons b1 b2 => simp_all [joinChAux]

/-- Joining an append of two nonempty piece lists inserts one separator. -/
theorem joinChAux_append (sep : Char) (xs ys : List (List Char))
    (hxs : xs ≠ []) (hys : ys ≠ []) :
    joinChAux sep (xs ++ ys) = joinChAux sep xs ++ sep :: joinChAux sep ys := by
  induction xs with
  | nil => exact absurd rfl hxs
  | cons x t ih =>
    cases t with
    | nil =>
      cases ys with
      | nil => exact absurd rfl hys
      | cons y u => simp [joinChAux]
    | cons z u =>
      have := ih (by simp)
      simp only [List.cons_append, joinChAux, List.append_eq] at *
      rw [this]
      simp [List.append_assoc]


/-! ## Claim C1: end-to-end scenario -/

/-- C1: in the root bundle with `languages: {en, fr}` and
`urls.html_suffix: true`, page `index.md` (id `index`, default language
`en`) gets URL `/en/index.html`; registering its label `@home` stores
`:home -> /en/index.html` with no diagnostic; and after the
cross-reference patching pass, the `@home` link in `about.md`'s tree
(whose own URL is `/en/about.html`) has href `../en/index.html` and its
visible text, previously the literal token `@home`, is replaced by the
home page's title. -/
theorem c1_end_to_end_scenario :
    c1Index.url = .ok "/en/index.html" ∧
    c1IndexBase.addLabel "home" "/en/index.html" = .ok (c1Index, []) ∧
    c1About.url = .ok "/en/about.html" ∧
    patchStaticUrls 10 [] c1About c1Pages c1Tree =
      .ok ([], .mk "div" [] none
        [.mk "a" [("href", .str "../en/index.html")] (some "Home") []]) :=
  ⟨rfl, rfl, rfl, rfl⟩

/-! ## Claim C2: configuration fallback -/

/-- C2: evaluating `Bundle.config` at the failing input.  The
sub-bundle maps `x` to the scalar `5`; querying `x.y` raises a
`TypeError` (`"y" not in 5`) instead of falling back to the parent,
whose lookup of the same key-path yields `7`.  This contradicts the
claimed fallback behaviour (and the method's own docstring, which says
the default is returned when the field is missing). -/
theorem c2_scalar_layer_raises :
    c2Sub.config "x.y" .null = .error () ∧
    c2Parent.config "x.y" .null = .ok (.int 7) :=
  ⟨rfl, rfl⟩

/-! ## Claim C4: the `=:` global-static rule -/

/-- C4: a reference target beginning with `=:` is captured by the
earlier `url.startswith("=")` test, so it is rewritten by the
page-local static rule with remainder `:logo.png` — not by the claimed
global-static rule, which would have produced `../static/logo.png`. -/
theorem c4_global_static_rule_dead :
    replaceUrl [] c4Page (some "=:logo.png") [] =
      .ok ([], some "../static/:logo.png", none, none) ∧
    c4Page.relpath (urlDiv "/static" "logo.png") = .ok "../static/logo.png" ∧
    ("../static/:logo.png" : String) ≠ "../static/logo.png" :=
  ⟨rfl, rfl, by decide⟩

/-! ## Claim C5: image patching -/

/-- C5: the image pass of `patch_static_urls` stores the *whole triple*
returned by `replace_url` into the `src` attribute, not the resolved
URL string alone as the claim states. -/
theorem c5_img_src_gets_tuple :
    patchStaticUrls 10 [] c4Page [] c5Tree =
      .ok ([], .mk "div" [] none
        [.mk "img" [("src", .tup (some "../static/pic.png") none none)]
          none []]) ∧
    AttrVal.tup (some "../static/pic.png") none none ≠
      .str "../static/pic.png" :=
  ⟨rfl, by decide⟩

/-! ## Claim C6: default URL derivation -/

/-- C6 counterexample: a bundle declaring exactly one language still
gets the `/en` path component, so the URL is `/en/guide` while the
claim's reading ("only if the bundle declares multiple languages")
predicts `/guide`. -/
theorem c6_single_language_prefixed :
    c6Page.url = .ok "/en/guide" ∧
    claimDefaultUrl c6Page = .ok "/guide" ∧
    ("/en/guide" : String) ≠ "/guide" :=
  ⟨rfl, rfl, by decide⟩



theorem strData_ne_nil {s : String} (h : s ≠ "") : s.data ≠ [] := by
  intro hd
  apply h
  cases s with
  | mk d => exact congrArg String.mk hd

/-! ## Claim C6 (amended) -/

/-- C6 (amended): for every page without `url_override` whose id is
nonempty and does not end in `/` (true of every discovered page), the
default URL is the language path component — present exactly when the
bundle's `languages` config value is truthy (non-empty), even for a
single declared language — followed by `/<id>`, followed by `.html`
exactly when the bundle's `urls.html_suffix` policy is enabled. -/
theorem c6_default_url_amended (p : PageInfo) (l : String) (lv sv : ConfigVal)
    (hov : p.url_override = none) (hl : p.lang = some l)
    (hlv : p.bundle.config "languages" (.bool false) = .ok lv)
    (hsv : p.bundle.config "urls.html_suffix" .null = .ok sv)
    (hid1 : p.id ≠ "") (hid2 : p.id.data.getLast? ≠ some '/') :
    p.url = .ok ((if truthy lv then "/" ++ l else "") ++ ("/" ++ p.id) ++
                 (if truthy sv then ".html" else "")) := by
  have hdata : ("/" ++ p.id).data = '/' :: p.id.data := rfl
  have hlast : ("/" ++ p.id).data.getLast? ≠ some '/' := by
    rw [hdata]
    obtain ⟨x, xs, hxs⟩ := List.exists_cons_of_ne_nil (strData_ne_nil hid1)
    rw [hxs, List.getLast?_cons_cons]
    rw [hxs] at hid2
    exact hid2
  unfold PageInfo.url
  rw [hov]
  unfold PageInfo.defaultUrl PageInfo.urlComponents PageInfo.config
  rw [hlv, hsv, hl]
  simp only [bind, Except.bind, if_neg hlast, Bool.false_or]
  by_cases htl : truthy lv
  · simp [htl]
  · simp [htl]

/-- Witness for C6 (amended) at the concrete single-language page. -/
theorem c6_amended_witness :
    c6Page.url = .ok ((if truthy (ConfigVal.obj [("en", .str "English")])
                       then "/" ++ "en" else "") ++ ("/" ++ c6Page.id) ++
                      (if truthy ConfigVal.null then ".html" else "")) :=
  c6_default_url_amended c6Page "en" (.obj [("en", .str "English")]) .null
    rfl rfl rfl rfl (by decide) (by decide)

theorem foundList_eq_nil (pages : List PageInfo) (K : String)
    (lang : Option String)
    (h : ∀ p ∈ pages, ∀ e ∈ p.labels, e.1 ≠ K) :
    foundList pages K lang = [] := by
  unfold foundList
  rw [List.flatten_eq_nil_iff]
  intro x hx
  rw [List.mem_map] at hx
  obtain ⟨p, hp, rfl⟩ := hx
  unfold pageHits
  split
  · rfl
  · rw [List.map_eq_nil_iff, List.filter_eq_nil_iff]
    intro e he
    simpa using h p hp e he

/-! ## Claim C7 -/

/-- C7: for a fully-qualified label key `K` that no page defines, every
resolution of a token qualifying to `K` returns "not found" (a `none`
target and empty title, with no diagnostics) and inserts `K` into the
process-wide unresolved-label set; after any nonempty sequence of such
resolutions starting from a state not containing `K`, the set contains
`K` exactly once. -/
theorem c7_unresolved_label (pages : List PageInfo) (K : String)
    (hnodef : ∀ p ∈ pages, ∀ e ∈ p.labels, e.1 ≠ K) :
    (∀ (u : List String) (src : PageInfo) (tok : String) (lang : Option String),
       qualifyToken src tok = K →
       resolveLabel u pages src tok lang = ⟨insertSet u K, none, "", []⟩) ∧
    (∀ (u : List String) (calls : List (PageInfo × String × Option String)),
       K ∉ u → calls ≠ [] →
       (∀ c ∈ calls, qualifyToken c.1 c.2.1 = K) →
       (resolveMany pages u calls).count K = 1) := by
  have hres : ∀ (u : List String) (src : PageInfo) (tok : String)
      (lang : Option String), qualifyToken src tok = K →
      resolveLabel u pages src tok lang = ⟨insertSet u K, none, "", []⟩ := by
    intro u src tok lang hq
    unfold resolveLabel
    rw [hq]
    simp only [foundList_eq_nil pages K lang hnodef]
  refine ⟨hres, ?_⟩
  have hstable : ∀ (calls : List (PageInfo × String × Option String))
      (u : List String), K ∈ u → (∀ c ∈ calls, qualifyToken c.1 c.2.1 = K) →
      resolveMany pages u calls = u := by
    intro calls
    induction calls with
    | nil => intro u _ _; rfl
    | cons c rest ih =>
      intro u hKu hq
      unfold resolveMany
      rw [hres u c.1 c.2.1 c.2.2 (hq c (by simp))]
      show resolveMany pages (insertSet u K) rest = u
      rw [show insertSet u K = u from by unfold insertSet; rw [if_pos hKu]]
      exact ih u hKu (fun d hd => hq d (by simp [hd]))
  intro u calls hKu hne hq
  cases calls with
  | nil => exact absurd rfl hne
  | cons c rest =>
    unfold resolveMany
    rw [hres u c.1 c.2.1 c.2.2 (hq c (by simp))]
    show (resolveMany pages (insertSet u K) rest).count K = 1
    rw [hstable rest (insertSet u K)
          (by unfold insertSet; split
              · assumption
              · exact List.mem_append_right _ (by simp))
          (fun d hd => hq d (by simp [hd]))]
    unfold insertSet
    rw [if_neg hKu, List.count_append]
    rw [List.count_eq_zero.mpr hKu]
    simp

/-- Witness for C7: resolving the undefined label `ghost` twice. -/
theorem c7_witness :
    resolveLabel [] c1Pages c1About "ghost" (some "en") =
      ⟨[":ghost"], none, "", []⟩ ∧
    (resolveMany c1Pages []
        [(c1About, "ghost", some "en"), (c1Index, "ghost", some "en")]).count
      ":ghost" = 1 :=
  ⟨(c7_unresolved_label c1Pages ":ghost" (by decide)).1 [] c1About "ghost"
      (some "en") (by decide),
   (c7_unresolved_label c1Pages ":ghost" (by decide)).2 []
      [(c1About, "ghost", some "en"), (c1Index, "ghost", some "en")]
      (by decide) (by simp) (by decide)⟩



theorem find?_map_overwrite (m : List (String × String)) (k v : String) :
    (m.map (fun e => if e.1 = k then (k, v) else e)).find?
        (fun e => e.1 = k) =
      if m.any (fun e => e.1 = k) then some (k, v) else none := by
  induction m with
  | nil => rfl
  | cons e t ih =>
    by_cases hek : e.1 = k
    · simp [List.find?, hek]
    · simp only [List.map_cons, if_neg hek, List.any_cons]
      rw [List.find?_cons_of_neg _ (by simpa using hek)]
      rw [ih]
      simp only [decide_eq_false hek, Bool.false_or]

theorem dictSet_any (m : List (String × String)) (k v : String) :
    (dictSet m k v).any (fun e => e.1 = k) := by
  unfold dictSet
  split
  · rename_i h
    rw [List.any_eq_true] at h ⊢
    obtain ⟨e, he, hek⟩ := h
    refine ⟨(k, v), ?_, by simp⟩
    rw [List.mem_map]
    refine ⟨e, he, ?_⟩
    rw [if_pos (by simpa using hek)]
  · rw [List.any_eq_true]
    exact ⟨(k, v), by simp, by simp⟩

theorem dictGet_dictSet (m : List (String × String)) (k v : String) :
    dictGet (dictSet m k v) k = some v := by
  unfold dictGet dictSet
  split
  · rename_i h
    rw [find?_map_overwrite, if_pos h]
    rfl
  · rename_i h
    rw [List.find?_append]
    rw [List.find?_eq_none.mpr]
    · simp [List.find?]
    · intro e he hek
      apply h
      rw [List.any_eq_true]
      exact ⟨e, he, hek⟩

/-! ## Claim C8 -/

/-- C8: registering a bare label `n` with target `t1` and then again
with target `t2` succeeds (never aborts), the second registration
reports an error naming the conflicting fully-qualified label, and the
page's label mapping is left with the key bound to `t2` (last
registration wins). -/
theorem c8_duplicate_label_overwrites (p : PageInfo) (n t1 t2 : String)
    (hn : n.data.head? ≠ some '@') :
    Except.map (fun r => (r.1.labels, r.2))
        ((p.addLabel n t1).bind fun r => r.1.addLabel n t2) =
      .ok (dictSet (dictSet p.labels (p.label_namespace ++ ":" ++ n) t1)
             (p.label_namespace ++ ":" ++ n) t2,
           [dupLabelMsg (p.label_namespace ++ ":" ++ n) t2]) ∧
    dictGet (dictSet (dictSet p.labels (p.label_namespace ++ ":" ++ n) t1)
               (p.label_namespace ++ ":" ++ n) t2)
        (p.label_namespace ++ ":" ++ n) = some t2 := by
  constructor
  · have hany := dictSet_any p.labels (p.label_namespace ++ ":" ++ n) t1
    simp only [PageInfo.addLabel, if_neg hn, Except.bind, Except.map, hany,
      if_pos, if_true]
  · exact dictGet_dictSet _ _ _

/-- Witness for C8 at a concrete page and label. -/
theorem c8_witness :
    dictGet (dictSet (dictSet c1About.labels (":" ++ "home") "/a")
               (":" ++ "home") "/b") (":" ++ "home") = some "/b" :=
  (c8_duplicate_label_overwrites c1About "home" "/a" "/b" (by decide)).2

/-! ## Claim C9 -/

/-- C9: registration and resolution qualify bare names identically.
Registering bare name `n` (starting with neither `@` nor `:`) on page
`P` stores exactly the key `label_namespace ++ ":" ++ n`; resolving the
token `n` from any page `Q` with the same namespace qualifies it to
exactly that key; and when the registered page is in the page set and
its language is compatible with the constraint, resolution finds it
(the returned target is not `none`). -/
theorem c9_qualification_agrees (pages : List PageInfo)
    (P Q P1 : PageInfo) (n t : String) (m1 : List String) (u : List String)
    (hat : n.data.head? ≠ some '@') (hcol : n.data.head? ≠ some ':')
    (hreg : P.addLabel n t = .ok (P1, m1))
    (hmem : P1 ∈ pages)
    (hns : Q.label_namespace = P.label_namespace)
    (hlang : langSkip P.lang Q.lang = false) :
    P1.labels = dictSet P.labels (P.label_namespace ++ ":" ++ n) t ∧
    dictGet P1.labels (P.label_namespace ++ ":" ++ n) = some t ∧
    qualifyToken Q n = P.label_namespace ++ ":" ++ n ∧
    (resolveLabel u pages Q n Q.lang).target ≠ none := by
  unfold PageInfo.addLabel at hreg
  rw [if_neg hat] at hreg
  simp only [Except.ok.injEq, Prod.mk.injEq] at hreg
  obtain ⟨hP1, -⟩ := hreg
  have hlab : P1.labels =
      dictSet P.labels (P.label_namespace ++ ":" ++ n) t := by
    rw [← hP1]
  have hlangP1 : P1.lang = P.lang := by rw [← hP1]
  have hget : dictGet P1.labels (P.label_namespace ++ ":" ++ n) = some t := by
    rw [hlab]; exact dictGet_dictSet _ _ _
  have hqual : qualifyToken Q n = P.label_namespace ++ ":" ++ n := by
    unfold qualifyToken
    rw [if_neg hcol, hns]
  refine ⟨hlab, hget, hqual, ?_⟩
  have hhit : pageHits (P.label_namespace ++ ":" ++ n) Q.lang P1 ≠ [] := by
    unfold pageHits
    rw [hlangP1, hlang]
    simp only [Bool.false_eq_true, if_false]
    intro hmapnil
    rw [List.map_eq_nil_iff] at hmapnil
    cases hf : P1.labels.find?
        (fun e => e.1 = P.label_namespace ++ ":" ++ n) with
    | none =>
      unfold dictGet at hget
      rw [hf] at hget
      simp at hget
    | some e0 =>
      have he0mem := List.mem_of_find?_eq_some hf
      have he0p := List.find?_some hf
      have : e0 ∈ P1.labels.filter
          (fun e => e.1 = P.label_namespace ++ ":" ++ n) :=
        List.mem_filter.mpr ⟨he0mem, he0p⟩
      rw [hmapnil] at this
      simp at this
  have hfound : foundList pages (P.label_namespace ++ ":" ++ n) Q.lang ≠ [] := by
    intro hnil
    apply hhit
    exact List.flatten_eq_nil_iff.mp hnil (pageHits _ _ P1)
      (List.mem_map_of_mem _ hmem)
  unfold resolveLabel
  rw [hqual]
  cases hfl : foundList pages (P.label_namespace ++ ":" ++ n) Q.lang with
  | nil => exact absurd hfl hfound
  | cons a rest =>
    cases rest with
    | nil => simp
    | cons b rest2 => simp

/-- Witness for C9: the label registered on `index` is found from
`about`. -/
theorem c9_witness :
    (resolveLabel [] c1Pages c1About "home" (some "en")).target ≠ none :=
  (c9_qualification_agrees c1Pages c1IndexBase c1About c1Index "home"
      "/en/index.html" [] [] (by decide) (by decide) rfl
      (by unfold c1Pages; exact List.mem_cons_self _ _) rfl (by decide)).2.2.2

theorem resolveLabel_unresolved_eq (u : List String) (pages : List PageInfo)
    (src : PageInfo) (label : String) (lang : Option String) :
    (resolveLabel u pages src label lang).unresolved =
      if foundList pages (qualifyToken src label) lang = []
      then insertSet u (qualifyToken src label) else u := by
  unfold resolveLabel
  cases hfl : foundList pages (qualifyToken src label) lang with
  | nil => simp [hfl]
  | cons a rest =>
    cases rest with
    | nil => simp [hfl]
    | cons b rest2 => simp [hfl]

/-! ## Claim C10 -/

/-- C10: `resolve_label` modifies no page — the page list (and hence
every page's id, lang, title, labels, url_override, tree and
fragments) is unchanged — and its only write effect on the
process-wide state is inserting the qualified key into the
unresolved-label set, exactly in the zero-hit case. -/
theorem c10_resolve_frame (w : World) (src : PageInfo) (label : String)
    (lang : Option String) :
    (resolveLabelW w src label lang).1.pages = w.pages ∧
    ((resolveLabelW w src label lang).1.pages.map
        (fun p => (p.id, p.lang, p.title, p.labels, p.url_override,
                   p.tree, p.fragments)) =
      w.pages.map (fun p => (p.id, p.lang, p.title, p.labels,
                   p.url_override, p.tree, p.fragments))) ∧
    (resolveLabelW w src label lang).1.unresolved =
      (if foundList w.pages (qualifyToken src label) lang = []
       then insertSet w.unresolved (qualifyToken src label)
       else w.unresolved) :=
  ⟨rfl, rfl, resolveLabel_unresolved_eq w.unresolved w.pages src label lang⟩




theorem okSeg_iff (s : String) :
    okSeg s = true ↔ s ≠ "" ∧ s ≠ "." ∧ s ≠ ".." ∧ '/' ∉ s.data := by
  simp [okSeg, and_assoc]

theorem map_mk_data (l : List String) : (l.map String.data).map String.mk = l := by
  induction l with
  | nil => rfl
  | cons s t ih =>
    simp only [List.map_cons]
    rw [ih]

theorem segsOf_pathOf (l : List String) (hl : ∀ s ∈ l, okSeg s) :
    segsOf (pathOf l) = l := by
  unfold segsOf splitCh pathOf
  have hd : (String.mk ('/' :: joinChAux '/' (l.map String.data))).data =
      '/' :: joinChAux '/' (l.map String.data) := rfl
  rw [hd]
  have h1 : splitChAux '/' ('/' :: joinChAux '/' (l.map String.data)) =
      [] :: splitChAux '/' (joinChAux '/' (l.map String.data)) := by
    simp [splitChAux]
  rw [h1]
  cases l with
  | nil => rfl
  | cons x xs =>
    rw [splitChAux_joinChAux '/' ((x :: xs).map String.data) (by simp)
      (by
        intro p hp
        rw [List.mem_map] at hp
        obtain ⟨s, hs, rfl⟩ := hp
        exact ((okSeg_iff s).mp (hl s hs)).2.2.2)]
    simp only [List.map_cons, map_mk_data]
    rw [List.filter_cons]
    simp only [ne_eq, decide_not]
    norm_num
    refine ⟨?_, ?_⟩
    · exact fun h => ((okSeg_iff x).mp (hl x (by simp))).1 h
    · exact fun a ha h => ((okSeg_iff a).mp (hl a (by simp [ha]))).1 h

theorem joinChAux_cons_eq_nil (sep : Char) (p : List Char) (ps : List (List Char))
    (h : joinChAux sep (p :: ps) = []) : p = [] ∧ ps = [] := by
  cases ps with
  | nil => exact ⟨h, rfl⟩
  | cons q qs =>
    exfalso
    simp only [joinChAux] at h
    rcases List.append_eq_nil.mp h with ⟨-, h2⟩
    exact List.cons_ne_nil _ _ h2

theorem pathOf_eq_root_iff (l : List String) (hl : ∀ s ∈ l, okSeg s) :
    pathOf l = "/" ↔ l = [] := by
  constructor
  · intro h
    cases l with
    | nil => rfl
    | cons x xs =>
      exfalso
      have hdata := congrArg String.data h
      simp only [pathOf] at hdata
      have h2 : '/' :: joinChAux '/' ((x :: xs).map String.data) = ['/'] := hdata
      have h3 : joinChAux '/' ((x :: xs).map String.data) = [] := by
        injection h2
      obtain ⟨hx, -⟩ := joinChAux_cons_eq_nil _ _ _ (by simpa using h3)
      have hxne := ((okSeg_iff x).mp (hl x (by simp))).1
      exact hxne (String.ext hx)
  · intro h
    rw [h]
    rfl

theorem tail1_pathOf (l : List String) : tail1 (pathOf l) = joinCh '/' l := rfl

theorem stDirname_pathOf (l : List String) (hl : ∀ s ∈ l, okSeg s) :
    stDirname (pathOf l) = pathOf l.dropLast := by
  unfold stDirname
  rw [segsOf_pathOf l hl]

theorem splitCh_joinCh (l : List String) (hne : l ≠ [])
    (hfree : ∀ s ∈ l, '/' ∉ s.data) :
    splitCh '/' (joinCh '/' l) = l := by
  unfold splitCh joinCh
  have hd : (String.mk (joinChAux '/' (l.map String.data))).data =
      joinChAux '/' (l.map String.data) := rfl
  rw [hd]
  rw [splitChAux_joinChAux '/' (l.map String.data) (by simpa using hne)
    (by
      intro p hp
      rw [List.mem_map] at hp
      obtain ⟨s, hs, rfl⟩ := hp
      exact hfree s hs)]
  exact map_mk_data l

theorem joinCh_append (xs ys : List String) (hxs : xs ≠ []) (hys : ys ≠ []) :
    joinCh '/' (xs ++ ys) = joinCh '/' xs ++ "/" ++ joinCh '/' ys := by
  apply String.ext
  show (joinChAux '/' ((xs ++ ys).map String.data)) =
    ((joinCh '/' xs ++ "/" ++ joinCh '/' ys)).data
  have : (joinCh '/' xs ++ "/" ++ joinCh '/' ys).data =
      joinChAux '/' (xs.map String.data) ++ ['/'] ++
        joinChAux '/' (ys.map String.data) := rfl
  rw [this, List.map_append,
    joinChAux_append '/' _ _ (by simpa using hxs) (by simpa using hys)]
  simp



theorem relpathRoot_pathOf (l : List String) (hl : ∀ s ∈ l, okSeg s) :
    relpathRoot (pathOf l) =
      if l.isEmpty then "." else joinCh '/' (List.replicate l.length "..") := by
  unfold relpathRoot
  rw [segsOf_pathOf l hl]

theorem foldl_resolveStep_dotdots (n : Nat) :
    ∀ acc : List String, acc.length = n →
      List.foldl resolveStep acc (List.replicate n "..") = [] := by
  induction n with
  | zero =>
    intro acc h
    rw [List.length_eq_zero.mp h]
    rfl
  | succ k ih =>
    intro acc h
    rw [List.replicate_succ, List.foldl_cons]
    have hstep : resolveStep acc ".." = acc.dropLast := by
      simp [resolveStep]
    rw [hstep]
    exact ih acc.dropLast (by rw [List.length_dropLast, h]; rfl)

theorem foldl_resolveStep_push (la : List String)
    (h : ∀ s ∈ la, okSeg s) :
    ∀ acc : List String, List.foldl resolveStep acc la = acc ++ la := by
  induction la with
  | nil => intro acc; simp
  | cons s t ih =>
    intro acc
    obtain ⟨h1, h2, h3, -⟩ := (okSeg_iff s).mp (h s (by simp))
    rw [List.foldl_cons]
    have hstep : resolveStep acc s = acc ++ [s] := by
      unfold resolveStep
      rw [if_neg h3]
      rw [if_neg (by simp [h1, h2])]
    rw [hstep, ih (fun x hx => h x (by simp [hx])) (acc ++ [s])]
    simp

theorem joinCh_cons_cons_data (x y : String) (ys : List String) :
    (joinCh '/' (x :: y :: ys)).data =
      x.data ++ '/' :: (joinCh '/' (y :: ys)).data := rfl

theorem dotdots_getLast (n : Nat) (hn : n ≠ 0) :
    (joinCh '/' (List.replicate n "..")).data.getLast? = some '.' := by
  induction n with
  | zero => exact absurd rfl hn
  | succ k ih =>
    cases k with
    | zero => rfl
    | succ j =>
      have ihj := ih (Nat.succ_ne_zero j)
      rw [List.replicate_succ]
      rw [show List.replicate (j + 1) ".." = ".." :: List.replicate j ".." from
        List.replicate_succ ".." j]
      rw [show (".." : String) :: ".." :: List.replicate j ".." =
        (".." : String) :: (".." :: List.replicate j "..") from rfl]
      rw [joinCh_cons_cons_data]
      rw [List.getLast?_append]
      rw [show (".." : String) :: List.replicate j ".." =
        List.replicate (j + 1) ".." from (List.replicate_succ ".." j).symm]
      cases hdata : (joinCh '/' (List.replicate (j + 1) "..")).data with
      | nil => rw [hdata] at ihj; simp at ihj
      | cons c cs =>
        rw [hdata] at ihj
        rw [List.getLast?_cons_cons]
        rw [ihj]
        rfl

theorem dotdots_ne_empty (n : Nat) (hn : n ≠ 0) :
    joinCh '/' (List.replicate n "..") ≠ "" := by
  intro h
  have := dotdots_getLast n hn
  rw [h] at this
  simp at this

theorem joinCh_head (x : String) (xs : List String) (hx : x ≠ "") :
    (joinCh '/' (x :: xs)).data.head? = x.data.head? := by
  cases xs with
  | nil => rfl
  | cons y ys =>
    rw [joinCh_cons_cons_data]
    rw [List.head?_append]
    obtain ⟨c, cs, hc⟩ := List.exists_cons_of_ne_nil (strData_ne_nil hx)
    rw [hc]
    rfl

theorem joinCh_head_ne_slash (x : String) (xs : List String)
    (hok : okSeg x) : (joinCh '/' (x :: xs)).data.head? ≠ some '/' := by
  obtain ⟨h1, -, -, h4⟩ := (okSeg_iff x).mp hok
  rw [joinCh_head x xs h1]
  obtain ⟨c, cs, hc⟩ := List.exists_cons_of_ne_nil (strData_ne_nil h1)
  rw [hc]
  intro h
  apply h4
  have : c = '/' := by injection h
  rw [hc, this]
  simp

theorem stJoin_dotdots (n : Nat) (hn : n ≠ 0) (b : String)
    (hb : b.data.head? ≠ some '/') :
    stJoin (joinCh '/' (List.replicate n "..")) b =
      joinCh '/' (List.replicate n "..") ++ "/" ++ b := by
  unfold stJoin
  rw [if_neg hb]
  rw [if_neg (by
    simp only [Bool.or_eq_true, not_or]
    refine ⟨by simpa using dotdots_ne_empty n hn, ?_⟩
    rw [dotdots_getLast n hn]
    simp)]



theorem replicate_dotdots_free (n : Nat) :
    ∀ s ∈ List.replicate n (".." : String), '/' ∉ s.data := by
  intro s hs
  rw [List.eq_of_mem_replicate hs]
  decide

theorem c3_relpath_list (la lb : List String)
    (hga : ∀ s ∈ la, okSeg s) (hgb : ∀ s ∈ lb, okSeg s) :
    resolveAgainst (stRelpath (pathOf lb) (pathOf la)) (pathOf lb) =
      pathOf la ∧
    stRelpath (pathOf lb) (pathOf la) =
      (if lb.dropLast = [] ∧ pathOf la = "/" then "."
       else claimCanonicalForm (pathOf la) (pathOf lb)) := by
  have hgb' : ∀ s ∈ lb.dropLast, okSeg s :=
    fun s hs => hgb s ((List.dropLast_sublist lb).subset hs)
  have hbase : stDirname (pathOf lb) = pathOf lb.dropLast :=
    stDirname_pathOf lb hgb
  have hcanon : claimCanonicalForm (pathOf la) (pathOf lb) =
      joinCh '/' (List.replicate lb.dropLast.length ".." ++ la) := by
    unfold claimCanonicalForm
    rw [segsOf_pathOf la hga, segsOf_pathOf lb hgb]
  have hres : ∀ rel, resolveAgainst rel (pathOf lb) =
      pathOf ((splitCh '/' rel).foldl resolveStep lb.dropLast) := by
    intro rel
    unfold resolveAgainst
    rw [segsOf_pathOf lb hgb]
  by_cases hla : la = []
  · subst hla
    by_cases hlb : lb.dropLast = []
    · -- target "/", base "/": the "." corner
      have hmain : stRelpath (pathOf lb) (pathOf ([] : List String)) = "." := by
        unfold stRelpath
        rw [if_pos (show pathOf ([] : List String) = "/" from rfl)]
        rw [hbase, hlb]
        rfl
      refine ⟨?_, ?_⟩
      · rw [hmain, hres "."]
        rw [hlb]
        rfl
      · rw [hmain, if_pos ⟨hlb, rfl⟩]
    · -- target "/", base below root: pure ".." chain
      have hn : lb.dropLast.length ≠ 0 :=
        fun h => hlb (List.length_eq_zero.mp h)
      have hmain : stRelpath (pathOf lb) (pathOf ([] : List String)) =
          joinCh '/' (List.replicate lb.dropLast.length "..") := by
        unfold stRelpath
        rw [if_pos (show pathOf ([] : List String) = "/" from rfl)]
        rw [hbase, relpathRoot_pathOf lb.dropLast hgb']
        rw [if_neg (by simpa using hlb)]
      refine ⟨?_, ?_⟩
      · rw [hmain, hres]
        rw [splitCh_joinCh _ (by simpa [List.replicate_eq_nil_iff] using hn)
          (replicate_dotdots_free _)]
        rw [foldl_resolveStep_dotdots lb.dropLast.length lb.dropLast rfl]
      · rw [hmain, if_neg (by simp [hlb]), hcanon, List.append_nil]
  · obtain ⟨y, ys, rfl⟩ := List.exists_cons_of_ne_nil hla
    have hAroot : pathOf (y :: ys) ≠ "/" :=
      fun h => by simpa using (pathOf_eq_root_iff (y :: ys) hga).mp h
    by_cases hlb : lb.dropLast = []
    · -- base is "/": plain target minus the leading slash
      have hmain : stRelpath (pathOf lb) (pathOf (y :: ys)) =
          joinCh '/' (y :: ys) := by
        unfold stRelpath
        rw [if_neg hAroot]
        rw [hbase, hlb]
        rw [if_pos (show pathOf ([] : List String) = "/" from rfl)]
        exact tail1_pathOf (y :: ys)
      refine ⟨?_, ?_⟩
      · rw [hmain, hres]
        rw [splitCh_joinCh _ (by simp)
          (fun s hs => ((okSeg_iff s).mp (hga s hs)).2.2.2)]
        rw [hlb]
        rw [foldl_resolveStep_push (y :: ys) hga []]
        rfl
      · rw [hmain, if_neg (by simp [hlb, hAroot]), hcanon, hlb]
        rfl
    · -- generic case: ".." chain plus target
      have hn : lb.dropLast.length ≠ 0 :=
        fun h => hlb (List.length_eq_zero.mp h)
      have hbne : pathOf lb.dropLast ≠ "/" :=
        fun h => hlb ((pathOf_eq_root_iff lb.dropLast hgb').mp h)
      have hmain : stRelpath (pathOf lb) (pathOf (y :: ys)) =
          joinCh '/' (List.replicate lb.dropLast.length ".." ++ (y :: ys)) := by
        unfold stRelpath
        rw [if_neg hAroot]
        rw [hbase]
        rw [if_neg hbne]
        rw [relpathRoot_pathOf lb.dropLast hgb']
        rw [if_neg (by simpa using hlb)]
        rw [tail1_pathOf (y :: ys)]
        rw [stJoin_dotdots lb.dropLast.length hn (joinCh '/' (y :: ys))
          (joinCh_head_ne_slash y ys (hga y (by simp)))]
        rw [joinCh_append _ _
          (by simpa [List.replicate_eq_nil_iff] using hn) (by simp)]
      refine ⟨?_, ?_⟩
      · rw [hmain, hres]
        rw [splitCh_joinCh _ (by simp)
          (by
            intro s hs
            rcases List.mem_append.mp hs with h | h
            · exact replicate_dotdots_free _ s h
            · exact ((okSeg_iff s).mp (hga s h)).2.2.2)]
        rw [List.foldl_append]
        rw [foldl_resolveStep_dotdots lb.dropLast.length lb.dropLast rfl]
        rw [foldl_resolveStep_push (y :: ys) hga []]
        rfl
      · rw [hmain, if_neg (by simp [hlb, hAroot]), hcanon]



/-! ## Claim C3 -/

/-- C3 counterexample: for target `/` and base `/a` (both valid
absolute paths) the code produces `"."` — `os.path.relpath("/", "/")`
— which is not the claimed `..`-segments-then-target form (which would
be the empty string here), so the claim as stated fails at this input. -/
theorem c3_counterexample_dot :
    validPath "/" = true ∧ validPath "/a" = true ∧
    ¬(resolveAgainst (stRelpath "/a" "/") "/a" = "/" ∧
      stRelpath "/a" "/" = claimCanonicalForm "/" "/a") := by decide

/-- C3 (amended): for every two valid absolute slash-normalized paths
`A` and `B` whose segments are nonempty and none of which is `.` or
`..`, the relative path computed from base `B` to target `A`
resolves (browser-style, against `B`'s directory) back to exactly
`A`; and the produced string is the `..`-segments-back-to-the-root
followed by `A`-minus-its-leading-slash form — except that when `B`
has a single segment and `A` is `/`, the produced string is `"."`
(which still resolves to `A`). -/
theorem c3_relpath_roundtrip_canonical (A B : String)
    (hA : A = pathOf (segsOf A)) (hB : B = pathOf (segsOf B))
    (hgA : ∀ s ∈ segsOf A, okSeg s) (hgB : ∀ s ∈ segsOf B, okSeg s) :
    resolveAgainst (stRelpath B A) B = A ∧
    stRelpath B A =
      (if (segsOf B).dropLast = [] ∧ A = "/" then "."
       else claimCanonicalForm A B) := by
  rw [hA, hB]
  rw [segsOf_pathOf (segsOf B) hgB]
  exact c3_relpath_list (segsOf A) (segsOf B) hgA hgB

/-- Witness for C3 (amended) at concrete paths. -/
theorem c3_amended_witness :
    resolveAgainst (stRelpath "/en/about.html" "/b/c") "/en/about.html" =
      "/b/c" ∧
    stRelpath "/en/about.html" "/b/c" =
      (if (segsOf "/en/about.html").dropLast = [] ∧ "/b/c" = "/" then "."
       else claimCanonicalForm "/b/c" "/en/about.html") :=
  c3_relpath_roundtrip_canonical "/b/c" "/en/about.html"
    (by decide) (by decide) (by decide) (by decide)


end Stdoc
